import Mathlib

/-!
Shallow embedding of `src/ingest_v2.py` (the RocketSheet v2 log ingestor).

Modelling conventions:
* Python `float` values are modelled as exact rationals (`ℚ`).  Every numeric
  token the three core regexes accept is a finite decimal, so each parsed
  value is an exact rational; non-finite literals (`inf`, `nan`) and the
  bit-level rounding of IEEE doubles are outside the model (see `pyRound` for
  why the two percentile call sites agree with the exact model).
* A Python `dict` (insertion ordered) is an association list
  `List (String × α)` written only through `pyDictUpd`, which updates the
  first matching key in place or appends a fresh key at the end.
* Python strings are `String` / `List Char`; `str.strip`, `str.lower` and
  `str.split` are modelled on their ASCII behaviour.
-/

/-- Python dict lookup on an association list: first match wins. -/
def lookupD {α : Type} : List (String × α) → String → Option α
  | [], _ => none
  | p :: rest, k => if p.1 = k then some p.2 else lookupD rest k

/-- Python dict write: update the (first) entry holding key `k` in place
with `f (some old)`, or append `(k, f none)` when the key is absent. -/
def pyDictUpd {α : Type} (d : List (String × α)) (k : String) (f : Option α → α) :
    List (String × α) :=
  if d.any (fun p => p.1 = k) then
    d.map (fun p => if p.1 = k then (k, f (some p.2)) else p)
  else d ++ [(k, f (none : Option α))]

/-- Keys of the association list, in order. -/
def dictKeys {α : Type} (d : List (String × α)) : List String := d.map Prod.fst

/-- Python `d[k] = v` on a dict of floats. -/
def dictSet (d : List (String × ℚ)) (k : String) (v : ℚ) : List (String × ℚ) :=
  pyDictUpd d k (fun _ => v)

/-- Python `d.setdefault(k, []).append(v)` on a dict of float lists. -/
def addSample (d : List (String × List ℚ)) (k : String) (v : ℚ) :
    List (String × List ℚ) :=
  pyDictUpd d k (fun old => old.getD [] ++ [v])

/-- The dataclass `LogMetrics`: per-file accumulator of the ingestor. -/
structure LogMetrics where
  loading_times : List (String × ℚ)
  aggregate_samples : List (String × List ℚ)
  frametimes : List ℚ
  deriving DecidableEq, Repr

/-- A fresh accumulator: the dataclass field defaults (all empty). -/
def LogMetrics.empty : LogMetrics := ⟨[], [], []⟩

/-- Method `record_loading_time`: record the last loading time per label. -/
def LogMetrics.record_loading_time (m : LogMetrics) (label : String) (value : ℚ) :
    LogMetrics :=
  { m with loading_times := dictSet m.loading_times label value }

/-- Method `record_aggregate`: extend the sample list of each component,
pairing legend with values positionally via `zip`. -/
def LogMetrics.record_aggregate (m : LogMetrics) (legend : List String)
    (values : List ℚ) : LogMetrics :=
  { m with aggregate_samples :=
      (legend.zip values).foldl (fun d p => addSample d p.1 p.2) m.aggregate_samples }

/-- Method `record_fps`: convert FPS to a frametime in milliseconds and
store it, guarded by `fps > 0`. -/
def LogMetrics.record_fps (m : LogMetrics) (fps : ℚ) : LogMetrics :=
  if 0 < fps then { m with frametimes := m.frametimes ++ [1000 / fps] } else m

/-- Python `sorted` on rationals, ascending. -/
def pySorted (l : List ℚ) : List ℚ := List.insertionSort (· ≤ ·) l

/-- Python's builtin `round` to an integer: nearest integer, ties to even.
The two call sites multiply an integer by `0.5` or `0.95`; at every exact-tie
argument the IEEE-double product the source computes is also an exact tie, so
the rational model is faithful at the ties, and away from a tie the two agree
trivially. -/
def pyRound (x : ℚ) : ℤ :=
  let f := ⌊x⌋
  let r := x - f
  if r < 1 / 2 then f
  else if 1 / 2 < r then f + 1
  else if f % 2 = 0 then f else f + 1

/-- `statistics.median`: sort, then take the middle element, or the mean of
the two middle elements when the length is even.  On an empty list Python
raises `StatisticsError`, which `compute_metrics` catches and maps to `0.0`;
the `0` this total function returns on `[]` mirrors that handler (the guard
in `compute_metrics` means it is never reached). -/
def median (vals : List ℚ) : ℚ :=
  let s := pySorted vals
  let n := s.length
  if n % 2 = 1 then s.getD (n / 2) 0
  else (s.getD (n / 2 - 1) 0 + s.getD (n / 2) 0) / 2

/-- The nested helper `percentile` of `compute_metrics` (nearest-rank):
`k = int(round((len(data) - 1) * pct))`, then `data[k]`.  The `getD` default
is never hit at the two call sites (`pct = 0.50`, `0.95`): the index is
proved below to lie in `[0, len - 1]`. -/
def percentile (data : List ℚ) (pct : ℚ) : ℚ :=
  if data.isEmpty then 0
  else data.getD (pyRound (((data.length : ℚ) - 1) * pct)).toNat 0

/-- The f-string `loading_time_{label}_ms`. -/
def loadKey (label : String) : String := "loading_time_" ++ label ++ "_ms"

/-- The f-string `aggregate_median_{label}`. -/
def aggKey (label : String) : String := "aggregate_median_" ++ label

/-- `compute_metrics`: reduce a finalized accumulator to the metric map,
iterating the three kinds of state in insertion order. -/
def compute_metrics (m : LogMetrics) : List (String × ℚ) :=
  let r1 := m.loading_times.foldl (fun r p => dictSet r (loadKey p.1) p.2) []
  let r2 := m.aggregate_samples.foldl
    (fun r p => if p.2 = [] then r else dictSet r (aggKey p.1) (median p.2)) r1
  if m.frametimes = [] then r2
  else
    let sorted_frames := pySorted m.frametimes
    dictSet (dictSet r2 "frametime_p50_ms" (percentile sorted_frames (1 / 2)))
      "frametime_p95_ms" (percentile sorted_frames (19 / 20))

/-- State-passing form of the reducer method call: the body of
`compute_metrics` only reads the accumulator (`sorted` copies `frametimes`;
no field of `metrics` is assigned), so the accumulator handed back to the
caller is the one passed in. -/
def compute_metricsM (m : LogMetrics) : List (String × ℚ) × LogMetrics :=
  (compute_metrics m, m)

/-! ### The line classifier of `parse_log_file` -/

/-- Python `str.strip()` restricted to ASCII whitespace. -/
def pyStrip (s : List Char) : List Char :=
  ((s.dropWhile Char.isWhitespace).reverse.dropWhile Char.isWhitespace).reverse

/-- Python `str.split(sep)` for a one-character separator:
`pySplit c [] = [[]]`, and every occurrence of `c` opens a new token. -/
def pySplit (sep : Char) : List Char → List (List Char)
  | [] => [[]]
  | c :: rest =>
    match pySplit sep rest with
    | [] => [[]]
    | t :: ts => if c = sep then [] :: t :: ts else (c :: t) :: ts

/-- Numeric value of a run of ASCII digits. -/
def digitsVal (ds : List Char) : ℕ := ds.foldl (fun n c => 10 * n + (c.toNat - 48)) 0

/-- The regex token `[0-9]+(?:\.[0-9]+)?` matched greedily at the head of
`s`, returned as its exact rational value (such a token always converts
under Python `float`, so the surrounding `try` never fires). -/
def parseNum (s : List Char) : Option ℚ :=
  let ds := s.takeWhile Char.isDigit
  if ds.isEmpty then none
  else
    match s.drop ds.length with
    | '.' :: r2 =>
      let fs := r2.takeWhile Char.isDigit
      if fs.isEmpty then some (digitsVal ds : ℚ)
      else some ((digitsVal ds : ℚ) + (digitsVal fs : ℚ) / 10 ^ fs.length)
    | _ => some (digitsVal ds : ℚ)

/-- Python `float(token)` on an already-stripped token: optional sign,
`digits [. digits]` or `. digits`, optional exponent, full consumption.
Non-finite literals (`inf`, `nan`) and digit-group underscores are outside
the rational model. -/
def pyFloat? (s : List Char) : Option ℚ :=
  let signed : ℚ × List Char :=
    match s with
    | '+' :: r => (1, r)
    | '-' :: r => (-1, r)
    | _ => (1, s)
  let sign := signed.1
  let s1 := signed.2
  let ip := s1.takeWhile Char.isDigit
  let mant : Option (ℚ × List Char) :=
    match s1.drop ip.length with
    | '.' :: r =>
      let fp := r.takeWhile Char.isDigit
      if ip.isEmpty ∧ fp.isEmpty then none
      else some ((digitsVal ip : ℚ) + (digitsVal fp : ℚ) / 10 ^ fp.length, r.drop fp.length)
    | other => if ip.isEmpty then none else some ((digitsVal ip : ℚ), other)
  match mant with
  | none => none
  | some (mq, s3) =>
    match s3 with
    | [] => some (sign * mq)
    | e :: r =>
      if e = 'e' ∨ e = 'E' then
        let esigned : Bool × List Char :=
          match r with
          | '+' :: rr => (true, rr)
          | '-' :: rr => (false, rr)
          | _ => (true, r)
        let ed := esigned.2.takeWhile Char.isDigit
        if ed.isEmpty ∨ ¬(esigned.2.drop ed.length).isEmpty then none
        else some (sign * mq * (if esigned.1 then (10 ^ digitsVal ed : ℚ) else 1 / 10 ^ digitsVal ed))
      else none

/-- Character class `[^=|]` of the loading-time label group. -/
def labelChar (c : Char) : Bool := !(c == '=' || c == '|')

/-- The anchored regex `^LOADING_TIME\|([^=|]+)[=|]([0-9]+(?:\.[0-9]+)?)`
together with the label strip: the label group greedily takes the maximal
nonempty run without `=` or `|`, one separator character follows, then the
number group.  Backtracking can produce no other split, so this linear scan
is exact. -/
def parseLoading (s : List Char) : Option (String × ℚ) :=
  if "LOADING_TIME|".toList.isPrefixOf s then
    let rest := s.drop 13
    let label := rest.takeWhile labelChar
    if label.isEmpty then none
    else
      match rest.drop label.length with
      | [] => none
      | _sep :: r2 =>
        match parseNum r2 with
        | some v => some (⟨pyStrip label⟩, v)
        | none => none
  else none

/-- The legend comprehension
`[s.strip() for s in legend_str.split(";") if s.strip()]`. -/
def aggLegendTokens (toks : List (List Char)) : List String :=
  ((toks.map (fun t => pyStrip t)).filter (fun t => !t.isEmpty)).map
    (fun t => (⟨t⟩ : String))

/-- The values loop of the aggregate branch: strip each `;`-token, skip the
empty ones, parse with Python `float`, defaulting to `0.0` on `ValueError`. -/
def aggValsTokens : List (List Char) → List ℚ
  | [] => []
  | token :: rest =>
    let t := pyStrip token
    if t.isEmpty then aggValsTokens rest
    else ((pyFloat? t).getD 0) :: aggValsTokens rest

/-- Legend list of an aggregate line from its raw legend group. -/
def aggLegend (legendStr : List Char) : List String :=
  aggLegendTokens (pySplit ';' legendStr)

/-- Value list of an aggregate line from its raw values group. -/
def aggVals (valuesStr : List Char) : List ℚ :=
  aggValsTokens (pySplit ';' valuesStr)

/-- The anchored regex `^AGGREGATE_([^|]+)\|([^|]*)\|(.+)`: group 1 is the
maximal nonempty run without `|` (unused downstream), group 2 the run up to
the next `|`, group 3 the nonempty remainder of the line.  Backtracking can
produce no other split, so this linear scan is exact. -/
def parseAggregate (s : List Char) : Option (List String × List ℚ) :=
  if "AGGREGATE_".toList.isPrefixOf s then
    let rest := s.drop 10
    let name := rest.takeWhile (fun c => !(c == '|'))
    if name.isEmpty then none
    else
      match rest.drop name.length with
      | '|' :: r2 =>
        let legendStr := r2.takeWhile (fun c => !(c == '|'))
        match r2.drop legendStr.length with
        | '|' :: valuesStr =>
          if valuesStr.isEmpty then none
          else some (aggLegend legendStr, aggVals valuesStr)
        | _ => none
      | _ => none
  else none

/-- One candidate position of `fps_re.search`: the literal `Perf: FPS=`
followed immediately by the number group. -/
def fpsMatchHere (s : List Char) : Option ℚ :=
  if "Perf: FPS=".toList.isPrefixOf s then parseNum (s.drop 10) else none

/-- `fps_re.search`: the leftmost position where `Perf: FPS=<number>`
matches (not anchored to the line start). -/
def fpsSearch : List Char → Option ℚ
  | [] => none
  | c :: rest =>
    match fpsMatchHere (c :: rest) with
    | some v => some v
    | none => fpsSearch rest

/-- A typed observation extracted from one raw line (the `kv` payload). -/
inductive Obs where
  | loading (label : String) (value : ℚ)
  | aggregate (legend : List String) (values : List ℚ)
  | fps (value : ℚ)
  deriving DecidableEq, Repr

/-- One event record of `events.jsonl`: the raw line plus the optional
structured payload. -/
structure Event where
  raw : String
  kv : Option Obs
  deriving DecidableEq, Repr

/-- The classification cascade of the `parse_log_file` loop body: the three
regexes are tried in order, first match wins, otherwise no `kv`.  (In the
FPS branch `float` cannot fail on the matched group, so the `except` path
that would emit a bare event is unreachable.) -/
def classifyLine (raw : String) : Option Obs :=
  match parseLoading raw.data with
  | some lv => some (.loading lv.1 lv.2)
  | none =>
    match parseAggregate raw.data with
    | some la => some (.aggregate la.1 la.2)
    | none =>
      match fpsSearch raw.data with
      | some v => some (.fps v)
      | none => none

/-- Dispatch of a classified observation to the accumulator methods. -/
def LogMetrics.record (m : LogMetrics) : Obs → LogMetrics
  | .loading label value => m.record_loading_time label value
  | .aggregate legend values => m.record_aggregate legend values
  | .fps v => m.record_fps v

/-- `parse_log_file` over the file's lines (each with its trailing newline
already stripped): updates the accumulator and emits exactly one event per
line, in file order. -/
def parse_log_file : List String → LogMetrics → LogMetrics × List Event
  | [], m => (m, [])
  | raw :: rest, m =>
    match classifyLine raw with
    | some o =>
      let res := parse_log_file rest (m.record o)
      (res.1, { raw := raw, kv := some o } :: res.2)
    | none =>
      let res := parse_log_file rest m
      (res.1, { raw := raw, kv := none } :: res.2)

/-- Record a list of classified observations into a fresh accumulator in
file order: the per-file life cycle of `LogMetrics`. -/
def applyOps (ops : List Obs) : LogMetrics :=
  ops.foldl LogMetrics.record LogMetrics.empty

/-! ### Role inference -/

/-- `os.path.basename` for POSIX paths: everything after the last `/`. -/
def basename (s : String) : String :=
  ⟨s.data.foldl (fun acc c => if c = '/' then [] else acc ++ [c]) []⟩

/-- Python `str.lower` restricted to ASCII. -/
def lowerStr (s : String) : String := ⟨s.data.map Char.toLower⟩

/-- Occurrence of `needle` as a contiguous substring of a character list. -/
def subMatch (needle : List Char) : List Char → Bool
  | [] => needle.isEmpty
  | c :: rest => needle.isPrefixOf (c :: rest) || subMatch needle rest

/-- Python `needle in hay` on strings. -/
def strContains (hay needle : String) : Bool := subMatch needle.data hay.data

/-- The truthiness-guarded override lookup `rolemap and base in rolemap`
(an absent mapping and an empty mapping both fail the guard). -/
def rolemapGet (rolemap : Option (List (String × String))) (base : String) :
    Option String :=
  match rolemap with
  | none => none
  | some rm => if rm.isEmpty then none else lookupD rm base

/-- `infer_role`: override lookup on the basename first, then the
case-insensitive substring cascade. -/
def infer_role (filename : String) (rolemap : Option (List (String × String))) :
    String :=
  let base := basename filename
  match rolemapGet rolemap base with
  | some r => r
  | none =>
    let lower := lowerStr base
    if strContains lower "client" then "client"
    else if strContains lower "server" && !(strContains lower "client") then "server"
    else if strContains lower "dedicated" then "dedicated"
    else "unknown"

/-- Spec-side description for claim C3: the value of the last `LoadingTime`
observation carrying the given label, scanning the file-ordered observation
list with the latest occurrence taking precedence. -/
def lastLoading : List Obs → String → Option ℚ
  | [], _ => none
  | o :: rest, label =>
    match lastLoading rest label with
    | some v => some v
    | none =>
      match o with
      | .loading l v => if l = label then some v else none
      | _ => none

/-! ### Association-list (Python dict) lemmas -/

theorem lookupD_append {α : Type} (d e : List (String × α)) (k : String) :
    lookupD (d ++ e) k =
      match lookupD d k with
      | some v => some v
      | none => lookupD e k := by
  induction d with
  | nil => simp [lookupD]
  | cons p rest ih => by_cases h : p.1 = k <;> simp [lookupD, h, ih]

theorem lookupD_map_upd {α : Type} (d : List (String × α)) (k k' : String)
    (f : Option α → α) :
    lookupD (d.map (fun p => if p.1 = k then (k, f (some p.2)) else p)) k' =
      if k' = k then (lookupD d k).map (fun v => f (some v)) else lookupD d k' := by
  induction d with
  | nil => by_cases h : k' = k <;> simp [lookupD, h]
  | cons p rest ih =>
    by_cases h : p.1 = k
    · subst h
      by_cases h2 : k' = p.1
      · subst h2
        simp [lookupD, ih]
      · simp [lookupD, h2, ih, Ne.symm h2]
    · by_cases h2 : k' = k
      · subst h2
        simp [lookupD, h, Ne.symm h, ih]
      · by_cases h3 : p.1 = k' <;> simp [lookupD, h, h2, h3, ih]

theorem any_key_eq_isSome {α : Type} (d : List (String × α)) (k : String) :
    d.any (fun p => p.1 = k) = (lookupD d k).isSome := by
  induction d with
  | nil => simp [lookupD]
  | cons p rest ih => by_cases h : p.1 = k <;> simp [lookupD, h, ih]

/-- Writing key `k` makes a later lookup of `k` read the written value. -/
theorem lookupD_pyDictUpd_self {α : Type} (d : List (String × α)) (k : String)
    (f : Option α → α) :
    lookupD (pyDictUpd d k f) k = some (f (lookupD d k)) := by
  unfold pyDictUpd
  by_cases h : d.any (fun p => p.1 = k) = true
  · rw [if_pos h, lookupD_map_upd, if_pos rfl]
    rw [any_key_eq_isSome] at h
    cases hv : lookupD d k with
    | none => rw [hv] at h; simp at h
    | some v => simp
  · rw [if_neg h, lookupD_append]
    rw [any_key_eq_isSome] at h
    cases hv : lookupD d k with
    | none => simp [lookupD]
    | some v => rw [hv] at h; simp at h

/-- Writing key `k` leaves the lookup of any other key unchanged. -/
theorem lookupD_pyDictUpd_ne {α : Type} (d : List (String × α)) (k k' : String)
    (f : Option α → α) (h : k' ≠ k) :
    lookupD (pyDictUpd d k f) k' = lookupD d k' := by
  unfold pyDictUpd
  by_cases ha : d.any (fun p => p.1 = k) = true
  · rw [if_pos ha, lookupD_map_upd, if_neg h]
  · rw [if_neg ha, lookupD_append]
    cases hv : lookupD d k' with
    | none => simp [lookupD, Ne.symm h]
    | some v => simp

/-- A Python dict never holds a key twice; `pyDictUpd` preserves this. -/
theorem dictKeys_nodup_pyDictUpd {α : Type} (d : List (String × α)) (k : String)
    (f : Option α → α) (h : (dictKeys d).Nodup) : (dictKeys (pyDictUpd d k f)).Nodup := by
  unfold pyDictUpd
  by_cases ha : d.any (fun p => p.1 = k) = true
  · rw [if_pos ha]
    have : dictKeys (d.map (fun p => if p.1 = k then (k, f (some p.2)) else p)) = dictKeys d := by
      unfold dictKeys
      rw [List.map_map]
      apply List.map_congr_left
      intro p _
      by_cases hp : p.1 = k <;> simp [hp]
    rwa [this]
  · rw [if_neg ha]
    have hk : ∀ p ∈ d, p.1 ≠ k := by
      intro p hp hpk
      exact absurd (List.any_eq_true.mpr ⟨p, hp, by simp [hpk]⟩) ha
    unfold dictKeys
    rw [List.map_append, List.nodup_append]
    refine ⟨h, by simp, ?_⟩
    intro x hx hxk
    simp only [List.map_cons, List.map_nil, List.mem_singleton] at hxk
    subst hxk
    rw [List.mem_map] at hx
    obtain ⟨p, hp, rfl⟩ := hx
    exact hk p hp rfl

/-! ### Metric-identifier shape lemmas -/

theorem loadKey_data (l : String) :
    (loadKey l).data = "loading_time_".data ++ (l.data ++ "_ms".data) := by
  show ("loading_time_" ++ l ++ "_ms").data = _
  rw [String.data_append, String.data_append, List.append_assoc]

theorem aggKey_data (l : String) :
    (aggKey l).data = "aggregate_median_".data ++ l.data := by
  show ("aggregate_median_" ++ l).data = _
  rw [String.data_append]

theorem loadKey_head (l : String) : (loadKey l).data.head? = some 'l' := by
  rw [loadKey_data, show "loading_time_".data = 'l' :: "oading_time_".data from by decide]
  rfl

theorem aggKey_head (l : String) : (aggKey l).data.head? = some 'a' := by
  rw [aggKey_data, show "aggregate_median_".data = 'a' :: "ggregate_median_".data from by decide]
  rfl

theorem loadKey_inj {a b : String} (h : loadKey a = loadKey b) : a = b := by
  have hd := congrArg String.data h
  rw [loadKey_data, loadKey_data] at hd
  exact String.ext ((List.append_left_inj _).mp ((List.append_right_inj _).mp hd))

theorem aggKey_inj {a b : String} (h : aggKey a = aggKey b) : a = b := by
  have hd := congrArg String.data h
  rw [aggKey_data, aggKey_data] at hd
  exact String.ext ((List.append_right_inj _).mp hd)

theorem aggKey_ne_loadKey (a b : String) : aggKey a ≠ loadKey b := by
  intro h
  have := congrArg (fun s => s.data.head?) h
  simp only [loadKey_head, aggKey_head] at this
  exact absurd (Option.some.inj this) (by decide)

theorem loadKey_ne_p50 (l : String) : loadKey l ≠ "frametime_p50_ms" := by
  intro h
  have := congrArg (fun s => s.data.head?) h
  simp only [loadKey_head] at this
  exact absurd this (by decide)

theorem loadKey_ne_p95 (l : String) : loadKey l ≠ "frametime_p95_ms" := by
  intro h
  have := congrArg (fun s => s.data.head?) h
  simp only [loadKey_head] at this
  exact absurd this (by decide)

theorem aggKey_ne_p50 (l : String) : aggKey l ≠ "frametime_p50_ms" := by
  intro h
  have := congrArg (fun s => s.data.head?) h
  simp only [aggKey_head] at this
  exact absurd this (by decide)

theorem aggKey_ne_p95 (l : String) : aggKey l ≠ "frametime_p95_ms" := by
  intro h
  have := congrArg (fun s => s.data.head?) h
  simp only [aggKey_head] at this
  exact absurd this (by decide)

/-! ### Lookup through the reducer's folds -/

theorem lookupD_dictSet_self (d : List (String × ℚ)) (k : String) (v : ℚ) :
    lookupD (dictSet d k v) k = some v := by
  rw [dictSet, lookupD_pyDictUpd_self]

theorem lookupD_dictSet_ne (d : List (String × ℚ)) (k k' : String) (v : ℚ)
    (h : k' ≠ k) : lookupD (dictSet d k v) k' = lookupD d k' :=
  lookupD_pyDictUpd_ne d k k' _ h

theorem lookupD_addSample_self (d : List (String × List ℚ)) (k : String) (v : ℚ) :
    lookupD (addSample d k v) k = some ((lookupD d k).getD [] ++ [v]) := by
  rw [addSample, lookupD_pyDictUpd_self]

theorem lookupD_addSample_ne (d : List (String × List ℚ)) (k k' : String) (v : ℚ)
    (h : k' ≠ k) : lookupD (addSample d k v) k' = lookupD d k' :=
  lookupD_pyDictUpd_ne d k k' _ h

theorem lookup_foldl_load_ne (L init : List (String × ℚ)) (K : String)
    (h : ∀ p ∈ L, loadKey p.1 ≠ K) :
    lookupD (L.foldl (fun r p => dictSet r (loadKey p.1) p.2) init) K = lookupD init K := by
  induction L generalizing init with
  | nil => rfl
  | cons p rest ih =>
    rw [List.foldl_cons, ih _ (fun q hq => h q (List.mem_cons_of_mem _ hq))]
    exact lookupD_dictSet_ne _ _ _ _ (fun he => h p (List.mem_cons_self _ _) he.symm)

theorem lookup_foldl_load (L init : List (String × ℚ)) (label : String)
    (hnd : (dictKeys L).Nodup) :
    lookupD (L.foldl (fun r p => dictSet r (loadKey p.1) p.2) init) (loadKey label) =
      match lookupD L label with
      | some v => some v
      | none => lookupD init (loadKey label) := by
  induction L generalizing init with
  | nil => rfl
  | cons p rest ih =>
    rw [List.foldl_cons]
    by_cases h : p.1 = label
    · subst h
      have hrest : ∀ q ∈ rest, q.1 ≠ p.1 := by
        intro q hq hqe
        simp only [dictKeys, List.map_cons, List.nodup_cons] at hnd
        exact hnd.1 (hqe ▸ List.mem_map_of_mem Prod.fst hq)
      rw [lookup_foldl_load_ne rest _ _ (fun q hq he => hrest q hq (loadKey_inj he)),
        lookupD_dictSet_self]
      simp [lookupD]
    · have hnd' : (dictKeys rest).Nodup := by
        simp only [dictKeys, List.map_cons, List.nodup_cons] at hnd
        exact hnd.2
      rw [ih _ hnd']
      have hlk : lookupD (p :: rest) label = lookupD rest label := by simp [lookupD, h]
      rw [hlk]
      cases hv : lookupD rest label with
      | some v => rfl
      | none =>
        simp only
        exact lookupD_dictSet_ne _ _ _ _ (fun he => h (loadKey_inj he).symm)

theorem lookup_foldl_agg_ne (A : List (String × List ℚ)) (init : List (String × ℚ))
    (K : String) (h : ∀ p ∈ A, aggKey p.1 ≠ K) :
    lookupD (A.foldl
      (fun r p => if p.2 = [] then r else dictSet r (aggKey p.1) (median p.2)) init) K =
      lookupD init K := by
  induction A generalizing init with
  | nil => rfl
  | cons p rest ih =>
    rw [List.foldl_cons, ih _ (fun q hq => h q (List.mem_cons_of_mem _ hq))]
    by_cases hp : p.2 = []
    · rw [if_pos hp]
    · rw [if_neg hp]
      exact lookupD_dictSet_ne _ _ _ _ (fun he => h p (List.mem_cons_self _ _) he.symm)

theorem lookup_foldl_agg (A : List (String × List ℚ)) (init : List (String × ℚ))
    (label : String) (hnd : (dictKeys A).Nodup) :
    lookupD (A.foldl
      (fun r p => if p.2 = [] then r else dictSet r (aggKey p.1) (median p.2)) init)
      (aggKey label) =
      match lookupD A label with
      | some vs => if vs = [] then lookupD init (aggKey label) else some (median vs)
      | none => lookupD init (aggKey label) := by
  induction A generalizing init with
  | nil => rfl
  | cons p rest ih =>
    rw [List.foldl_cons]
    by_cases h : p.1 = label
    · subst h
      have hrest : ∀ q ∈ rest, q.1 ≠ p.1 := by
        intro q hq hqe
        simp only [dictKeys, List.map_cons, List.nodup_cons] at hnd
        exact hnd.1 (hqe ▸ List.mem_map_of_mem Prod.fst hq)
      rw [lookup_foldl_agg_ne rest _ _ (fun q hq he => hrest q hq (aggKey_inj he))]
      have hlk : lookupD (p :: rest) p.1 = some p.2 := by simp [lookupD]
      rw [hlk]
      by_cases hp : p.2 = []
      · rw [if_pos hp]
        simp [hp]
      · rw [if_neg hp]
        simp only [hp, if_false]
        exact lookupD_dictSet_self _ _ _
    · have hnd' : (dictKeys rest).Nodup := by
        simp only [dictKeys, List.map_cons, List.nodup_cons] at hnd
        exact hnd.2
      rw [ih _ hnd']
      have hlk : lookupD (p :: rest) label = lookupD rest label := by simp [lookupD, h]
      rw [hlk]
      have hne : lookupD (if p.2 = [] then init else dictSet init (aggKey p.1) (median p.2))
          (aggKey label) = lookupD init (aggKey label) := by
        by_cases hp : p.2 = []
        · rw [if_pos hp]
        · rw [if_neg hp]
          exact lookupD_dictSet_ne _ _ _ _ (fun he => h (aggKey_inj he).symm)
      cases hv : lookupD rest label with
      | some v =>
        by_cases hv2 : v = [] <;> simp only [hv2, if_true, if_false, hne]
      | none => simp only [hne]

/-- Where a loading-time metric in the report comes from. -/
theorem compute_metrics_lookup_load (m : LogMetrics) (label : String)
    (hnd : (dictKeys m.loading_times).Nodup) :
    lookupD (compute_metrics m) (loadKey label) = lookupD m.loading_times label := by
  simp only [compute_metrics]
  have core : lookupD (m.aggregate_samples.foldl
      (fun r p => if p.2 = [] then r else dictSet r (aggKey p.1) (median p.2))
      (m.loading_times.foldl (fun r p => dictSet r (loadKey p.1) p.2) []))
      (loadKey label) = lookupD m.loading_times label := by
    rw [lookup_foldl_agg_ne _ _ _ (fun p _ => aggKey_ne_loadKey p.1 label),
      lookup_foldl_load _ _ _ hnd]
    cases hv : lookupD m.loading_times label <;> rfl
  by_cases hf : m.frametimes = []
  · rw [if_pos hf]
    exact core
  · rw [if_neg hf,
      lookupD_dictSet_ne _ _ _ _ (loadKey_ne_p95 label),
      lookupD_dictSet_ne _ _ _ _ (loadKey_ne_p50 label)]
    exact core

/-- Where an aggregate-median metric in the report comes from. -/
theorem compute_metrics_lookup_agg (m : LogMetrics) (label : String)
    (hnd : (dictKeys m.aggregate_samples).Nodup) :
    lookupD (compute_metrics m) (aggKey label) =
      match lookupD m.aggregate_samples label with
      | some vs => if vs = [] then none else some (median vs)
      | none => none := by
  simp only [compute_metrics]
  have base : lookupD (m.loading_times.foldl
      (fun r p => dictSet r (loadKey p.1) p.2) []) (aggKey label) = none := by
    rw [lookup_foldl_load_ne _ _ _ (fun p _ => (aggKey_ne_loadKey label p.1).symm)]
    rfl
  have core : lookupD (m.aggregate_samples.foldl
      (fun r p => if p.2 = [] then r else dictSet r (aggKey p.1) (median p.2))
      (m.loading_times.foldl (fun r p => dictSet r (loadKey p.1) p.2) []))
      (aggKey label) =
      match lookupD m.aggregate_samples label with
      | some vs => if vs = [] then none else some (median vs)
      | none => none := by
    rw [lookup_foldl_agg _ _ _ hnd]
    cases hv : lookupD m.aggregate_samples label with
    | some vs =>
      by_cases hv2 : vs = [] <;> simp only [hv2, if_true, if_false, base]
    | none => simp only [base]
  by_cases hf : m.frametimes = []
  · rw [if_pos hf]
    exact core
  · rw [if_neg hf,
      lookupD_dictSet_ne _ _ _ _ (aggKey_ne_p95 label),
      lookupD_dictSet_ne _ _ _ _ (aggKey_ne_p50 label)]
    exact core

/-- Where the p50 frametime metric in the report comes from. -/
theorem compute_metrics_lookup_p50 (m : LogMetrics) :
    lookupD (compute_metrics m) "frametime_p50_ms" =
      if m.frametimes = [] then none
      else some (percentile (pySorted m.frametimes) (1 / 2)) := by
  simp only [compute_metrics]
  by_cases hf : m.frametimes = []
  · rw [if_pos hf, if_pos hf,
      lookup_foldl_agg_ne _ _ _ (fun p _ => aggKey_ne_p50 p.1),
      lookup_foldl_load_ne _ _ _ (fun p _ => loadKey_ne_p50 p.1)]
    rfl
  · rw [if_neg hf, if_neg hf,
      lookupD_dictSet_ne _ _ _ _ (by decide : "frametime_p50_ms" ≠ "frametime_p95_ms"),
      lookupD_dictSet_self]

/-- Where the p95 frametime metric in the report comes from. -/
theorem compute_metrics_lookup_p95 (m : LogMetrics) :
    lookupD (compute_metrics m) "frametime_p95_ms" =
      if m.frametimes = [] then none
      else some (percentile (pySorted m.frametimes) (19 / 20)) := by
  simp only [compute_metrics]
  by_cases hf : m.frametimes = []
  · rw [if_pos hf, if_pos hf,
      lookup_foldl_agg_ne _ _ _ (fun p _ => aggKey_ne_p95 p.1),
      lookup_foldl_load_ne _ _ _ (fun p _ => loadKey_ne_p95 p.1)]
    rfl
  · rw [if_neg hf, if_neg hf, lookupD_dictSet_self]

/-! ### Bounds for the nearest-rank index -/

theorem pyRound_cases (x : ℚ) : pyRound x = ⌊x⌋ ∨ pyRound x = ⌊x⌋ + 1 := by
  simp only [pyRound]
  split_ifs <;> simp

theorem pyRound_nonneg {x : ℚ} (h : 0 ≤ x) : 0 ≤ pyRound x := by
  have hf : 0 ≤ ⌊x⌋ := Int.floor_nonneg.mpr h
  rcases pyRound_cases x with he | he <;> rw [he] <;> omega

theorem pyRound_le {x : ℚ} {k : ℤ} (h : x ≤ (k : ℚ)) : pyRound x ≤ k := by
  have hfk : ⌊x⌋ ≤ k := by
    have := Int.floor_le_floor h
    simpa using this
  have hfx : (⌊x⌋ : ℚ) ≤ x := Int.floor_le x
  simp only [pyRound]
  split_ifs with h1 h2 h3
  · exact hfk
  · have hx : (⌊x⌋ : ℚ) + 1 / 2 < x := by linarith
    have : (⌊x⌋ : ℚ) < (k : ℚ) := by linarith
    have : ⌊x⌋ < k := by exact_mod_cast this
    omega
  · exact hfk
  · have hx : (⌊x⌋ : ℚ) + 1 / 2 ≤ x := by linarith
    have : (⌊x⌋ : ℚ) < (k : ℚ) := by linarith
    have : ⌊x⌋ < k := by exact_mod_cast this
    omega

/-- The nearest-rank index is always a legal index of a non-empty list when
the percentile lies in `[0, 1]`. -/
theorem percentile_index_lt (data : List ℚ) (pct : ℚ) (h : data ≠ [])
    (h0 : 0 ≤ pct) (h1 : pct ≤ 1) :
    (pyRound (((data.length : ℚ) - 1) * pct)).toNat < data.length := by
  have hlen : 1 ≤ data.length := List.length_pos.mpr h
  have hlen' : (1 : ℚ) ≤ (data.length : ℚ) := by exact_mod_cast hlen
  have hx0 : 0 ≤ ((data.length : ℚ) - 1) * pct := mul_nonneg (by linarith) h0
  have hxle : ((data.length : ℚ) - 1) * pct ≤ (((data.length : ℤ) - 1 : ℤ) : ℚ) := by
    push_cast
    nlinarith
  have hk0 := pyRound_nonneg hx0
  have hkle := pyRound_le hxle
  omega

/-- The value `percentile data pct` is an element of `data` whenever `data`
is non-empty and `0 ≤ pct ≤ 1`. -/
theorem percentile_mem (data : List ℚ) (pct : ℚ) (h : data ≠ [])
    (h0 : 0 ≤ pct) (h1 : pct ≤ 1) : percentile data pct ∈ data := by
  have hlt := percentile_index_lt data pct h h0 h1
  unfold percentile
  rw [if_neg (by simpa [List.isEmpty_iff] using h)]
  rw [List.getD_eq_getElem?_getD, List.getElem?_eq_getElem hlt]
  exact List.getElem_mem hlt

/-- Claim C1: with `n = frameTimes.length` non-zero, the report holds exactly
the two frametime metrics, each the entry of the ascending-sorted frametime
list at index `round((n - 1) * p)` (Python rounding), `p = 0.50` and `0.95`;
with `frameTimes` empty, neither key is present in the report. -/
theorem frametime_percentile_metrics (m : LogMetrics) :
    (m.frametimes ≠ [] →
      (pyRound (((m.frametimes.length : ℚ) - 1) * (1 / 2))).toNat < m.frametimes.length ∧
      (pyRound (((m.frametimes.length : ℚ) - 1) * (19 / 20))).toNat < m.frametimes.length ∧
      lookupD (compute_metrics m) "frametime_p50_ms" =
        some ((pySorted m.frametimes).getD
          (pyRound (((m.frametimes.length : ℚ) - 1) * (1 / 2))).toNat 0) ∧
      lookupD (compute_metrics m) "frametime_p95_ms" =
        some ((pySorted m.frametimes).getD
          (pyRound (((m.frametimes.length : ℚ) - 1) * (19 / 20))).toNat 0)) ∧
    (m.frametimes = [] →
      lookupD (compute_metrics m) "frametime_p50_ms" = none ∧
      lookupD (compute_metrics m) "frametime_p95_ms" = none) := by
  constructor
  · intro h
    have hlen : (pySorted m.frametimes).length = m.frametimes.length :=
      (List.perm_insertionSort _ _).length_eq
    have hne : pySorted m.frametimes ≠ [] := by
      intro hc
      apply h
      have := hlen.symm.trans (congrArg List.length hc)
      exact List.length_eq_zero.mp this
    have hemp : (pySorted m.frametimes).isEmpty = false := by
      simpa [List.isEmpty_iff] using hne
    have h50 : percentile (pySorted m.frametimes) (1 / 2) =
        (pySorted m.frametimes).getD
          (pyRound (((m.frametimes.length : ℚ) - 1) * (1 / 2))).toNat 0 := by
      unfold percentile
      rw [if_neg (by simp [hemp]), hlen]
    have h95 : percentile (pySorted m.frametimes) (19 / 20) =
        (pySorted m.frametimes).getD
          (pyRound (((m.frametimes.length : ℚ) - 1) * (19 / 20))).toNat 0 := by
      unfold percentile
      rw [if_neg (by simp [hemp]), hlen]
    refine ⟨percentile_index_lt _ _ h (by norm_num) (by norm_num),
      percentile_index_lt _ _ h (by norm_num) (by norm_num), ?_, ?_⟩
    · rw [compute_metrics_lookup_p50, if_neg h, h50]
    · rw [compute_metrics_lookup_p95, if_neg h, h95]
  · intro h
    rw [compute_metrics_lookup_p50, compute_metrics_lookup_p95, if_pos h, if_pos h]
    exact ⟨rfl, rfl⟩

/-- Witness for C1 at the spec's own example: frametimes `10, 20, 5` sort to
`5, 10, 20`, the p50 index is `round(2 * 0.5) = 1` and the p95 index is
`round(2 * 0.95) = 2`. -/
theorem frametime_percentile_metrics_witness :
    ((⟨[], [], [10, 20, 5]⟩ : LogMetrics).frametimes ≠ []) ∧
    lookupD (compute_metrics ⟨[], [], [10, 20, 5]⟩) "frametime_p50_ms" = some 10 ∧
    lookupD (compute_metrics ⟨[], [], [10, 20, 5]⟩) "frametime_p95_ms" = some 20 := by
  have h := (frametime_percentile_metrics ⟨[], [], [10, 20, 5]⟩).1 (by simp)
  exact ⟨by simp, h.2.2.1.trans (by with_unfolding_all rfl),
    h.2.2.2.trans (by with_unfolding_all rfl)⟩

/-- Claim C6: `parse_log_file` emits exactly one event per input line, each
carrying the raw line text, in input order — whatever each line classifies
to. -/
theorem event_stream_round_trip (lines : List String) (m : LogMetrics) :
    ((parse_log_file lines m).2).map Event.raw = lines := by
  induction lines generalizing m with
  | nil => rfl
  | cons raw rest ih =>
    show ((parse_log_file (raw :: rest) m).2).map Event.raw = raw :: rest
    unfold parse_log_file
    cases h : classifyLine raw with
    | some o => simp [ih]
    | none => simp [ih]

/-- Claim C8: the reducer is a pure function of the accumulator — it leaves
every accumulator field untouched, and reducing the same finalized
accumulator twice produces the identical report (same keys, same values). -/
theorem compute_metrics_pure (m : LogMetrics) :
    (compute_metricsM m).2.loading_times = m.loading_times ∧
    (compute_metricsM m).2.aggregate_samples = m.aggregate_samples ∧
    (compute_metricsM m).2.frametimes = m.frametimes ∧
    (compute_metricsM ((compute_metricsM m).2)).1 = (compute_metricsM m).1 := by
  exact ⟨rfl, rfl, rfl, rfl⟩

/-- Claim C5: `record_fps` appends exactly the single sample `1000 / fps`
when `fps > 0` and appends nothing, silently, when `fps ≤ 0`; in particular
the lines `Perf: FPS=0` and `Perf: FPS=-5` never contribute a frametime
sample. -/
theorem record_fps_guard :
    (∀ (m : LogMetrics) (fps : ℚ),
      (0 < fps → m.record_fps fps = { m with frametimes := m.frametimes ++ [1000 / fps] }) ∧
      (fps ≤ 0 → m.record_fps fps = m)) ∧
    (∀ m : LogMetrics, (parse_log_file ["Perf: FPS=0"] m).1.frametimes = m.frametimes) ∧
    (∀ m : LogMetrics, (parse_log_file ["Perf: FPS=-5"] m).1.frametimes = m.frametimes) := by
  refine ⟨fun m fps => ⟨fun h => ?_, fun h => ?_⟩, fun m => ?_, fun m => ?_⟩
  · rw [LogMetrics.record_fps, if_pos h]
  · rw [LogMetrics.record_fps, if_neg (not_lt.mpr h)]
  · have hc : classifyLine "Perf: FPS=0" = some (Obs.fps 0) := by with_unfolding_all rfl
    simp [parse_log_file, hc, LogMetrics.record, LogMetrics.record_fps]
  · have hc : classifyLine "Perf: FPS=-5" = none := by with_unfolding_all rfl
    simp [parse_log_file, hc]

/-- Witness for C5: FPS 2 becomes the single 500 ms sample; FPS −1 records
nothing. -/
theorem record_fps_guard_witness :
    LogMetrics.record_fps ⟨[], [], []⟩ 2 = ⟨[], [], [500]⟩ ∧
    LogMetrics.record_fps ⟨[], [], []⟩ (-1) = ⟨[], [], []⟩ := by
  constructor
  · exact ((record_fps_guard.1 ⟨[], [], []⟩ 2).1 (by norm_num)).trans
      (by with_unfolding_all rfl)
  · exact (record_fps_guard.1 ⟨[], [], []⟩ (-1)).2 (by norm_num)

/-! ### The accumulator after a sequence of record calls -/

theorem lookup_loading_foldl (ops : List Obs) (m : LogMetrics) (label : String) :
    lookupD (ops.foldl LogMetrics.record m).loading_times label =
      match lastLoading ops label with
      | some v => some v
      | none => lookupD m.loading_times label := by
  induction ops generalizing m with
  | nil => rfl
  | cons o rest ih =>
    rw [List.foldl_cons, ih]
    cases hv : lastLoading rest label with
    | some v => simp [lastLoading, hv]
    | none =>
      simp only [lastLoading, hv]
      cases o with
      | loading l v =>
        by_cases hl : l = label
        · subst hl
          simp only [if_pos rfl]
          simp [LogMetrics.record, LogMetrics.record_loading_time, lookupD_dictSet_self]
        · simp only [if_neg hl]
          simp only [LogMetrics.record, LogMetrics.record_loading_time]
          exact lookupD_dictSet_ne _ _ _ _ (fun he => hl he.symm)
      | aggregate lg vs => rfl
      | fps v =>
        simp only [LogMetrics.record, LogMetrics.record_fps]
        by_cases h0 : 0 < v
        · rw [if_pos h0]
        · rw [if_neg h0]

theorem foldl_addSample_keys_nodup (pairs : List (String × ℚ))
    (d : List (String × List ℚ)) (h : (dictKeys d).Nodup) :
    (dictKeys (pairs.foldl (fun d p => addSample d p.1 p.2) d)).Nodup := by
  induction pairs generalizing d with
  | nil => exact h
  | cons p rest ih =>
    rw [List.foldl_cons]
    exact ih _ (dictKeys_nodup_pyDictUpd _ _ _ h)

theorem record_keys_nodup (o : Obs) (m : LogMetrics)
    (h1 : (dictKeys m.loading_times).Nodup)
    (h2 : (dictKeys m.aggregate_samples).Nodup) :
    (dictKeys (m.record o).loading_times).Nodup ∧
    (dictKeys (m.record o).aggregate_samples).Nodup := by
  cases o with
  | loading l v =>
    refine ⟨?_, h2⟩
    show (dictKeys (pyDictUpd m.loading_times l (fun _ => v))).Nodup
    exact dictKeys_nodup_pyDictUpd _ _ _ h1
  | aggregate lg vs =>
    refine ⟨h1, ?_⟩
    show (dictKeys ((lg.zip vs).foldl (fun d p => addSample d p.1 p.2)
      m.aggregate_samples)).Nodup
    exact foldl_addSample_keys_nodup _ _ h2
  | fps v =>
    simp only [LogMetrics.record, LogMetrics.record_fps]
    by_cases h0 : 0 < v
    · rw [if_pos h0]; exact ⟨h1, h2⟩
    · rw [if_neg h0]; exact ⟨h1, h2⟩

theorem applyOps_keys_nodup (ops : List Obs) :
    (dictKeys (applyOps ops).loading_times).Nodup ∧
    (dictKeys (applyOps ops).aggregate_samples).Nodup := by
  suffices h : ∀ m : LogMetrics, (dictKeys m.loading_times).Nodup →
      (dictKeys m.aggregate_samples).Nodup →
      (dictKeys (ops.foldl LogMetrics.record m).loading_times).Nodup ∧
      (dictKeys (ops.foldl LogMetrics.record m).aggregate_samples).Nodup by
    exact h LogMetrics.empty (by simp [LogMetrics.empty, dictKeys])
      (by simp [LogMetrics.empty, dictKeys])
  induction ops with
  | nil => exact fun m h1 h2 => ⟨h1, h2⟩
  | cons o rest ih =>
    intro m h1 h2
    rw [List.foldl_cons]
    obtain ⟨g1, g2⟩ := record_keys_nodup o m h1 h2
    exact ih _ g1 g2

/-- Claim C3: the loading-time metric of a label is the value of the last
`LoadingTime` observation with that label, whatever was recorded before. -/
theorem loading_time_last_write_wins (ops : List Obs) (label : String) (v : ℚ)
    (h : lastLoading ops label = some v) :
    lookupD (compute_metrics (applyOps ops)) (loadKey label) = some v := by
  have hnd := (applyOps_keys_nodup ops).1
  have hl := lookup_loading_foldl ops LogMetrics.empty label
  rw [h] at hl
  exact (compute_metrics_lookup_load _ _ hnd).trans hl

/-- Witness for C3 at the spec example: `Session = 12.5` then `Session = 20`
ends at `20`. -/
theorem loading_time_last_write_wins_witness :
    lastLoading [Obs.loading "Session" (25 / 2), Obs.loading "Session" 20] "Session"
      = some 20 ∧
    lookupD (compute_metrics (applyOps
        [Obs.loading "Session" (25 / 2), Obs.loading "Session" 20]))
      (loadKey "Session") = some 20 := by
  have h : lastLoading [Obs.loading "Session" (25 / 2), Obs.loading "Session" 20] "Session"
      = some 20 := by with_unfolding_all rfl
  exact ⟨h, loading_time_last_write_wins _ _ _ h⟩

/-- Claim C4: a label with at least one aggregate sample yields the metric
`aggregate_median_{label} = median(samples)` (standard median, mean of the
two middle elements for even length); an empty sample list yields no metric
instead of an error. -/
theorem aggregate_median_metric (ops : List Obs) (label : String) (vs : List ℚ)
    (h : lookupD (applyOps ops).aggregate_samples label = some vs) :
    (vs ≠ [] → lookupD (compute_metrics (applyOps ops)) (aggKey label) = some (median vs)) ∧
    (vs = [] → lookupD (compute_metrics (applyOps ops)) (aggKey label) = none) := by
  have hnd := (applyOps_keys_nodup ops).2
  have hc := compute_metrics_lookup_agg (applyOps ops) label hnd
  rw [h] at hc
  exact ⟨fun hne => hc.trans (by simp [hne]), fun he => hc.trans (by simp [he])⟩

/-- Witness for C4 at the spec example: GPUTime samples `5, 3, 4` give the
median `4`. -/
theorem aggregate_median_metric_witness :
    lookupD (applyOps [Obs.aggregate ["GPUTime", "RenderThread"] [5, 7],
        Obs.aggregate ["GPUTime", "RenderThread"] [3, 9],
        Obs.aggregate ["GPUTime", "RenderThread"] [4, 5]]).aggregate_samples "GPUTime"
      = some [5, 3, 4] ∧
    lookupD (compute_metrics (applyOps [Obs.aggregate ["GPUTime", "RenderThread"] [5, 7],
        Obs.aggregate ["GPUTime", "RenderThread"] [3, 9],
        Obs.aggregate ["GPUTime", "RenderThread"] [4, 5]]))
      (aggKey "GPUTime") = some 4 := by
  have h : lookupD (applyOps [Obs.aggregate ["GPUTime", "RenderThread"] [5, 7],
      Obs.aggregate ["GPUTime", "RenderThread"] [3, 9],
      Obs.aggregate ["GPUTime", "RenderThread"] [4, 5]]).aggregate_samples "GPUTime"
      = some [5, 3, 4] := by with_unfolding_all rfl
  have h2 := (aggregate_median_metric _ "GPUTime" [5, 3, 4] h).1 (by simp)
  exact ⟨h, h2.trans (by with_unfolding_all rfl)⟩

theorem frametimes_pos_foldl (ops : List Obs) (m : LogMetrics)
    (h : ∀ x ∈ m.frametimes, 0 < x) :
    ∀ x ∈ (ops.foldl LogMetrics.record m).frametimes, 0 < x := by
  induction ops generalizing m with
  | nil => exact h
  | cons o rest ih =>
    rw [List.foldl_cons]
    apply ih
    cases o with
    | loading l v => exact h
    | aggregate lg vs => exact h
    | fps v =>
      simp only [LogMetrics.record, LogMetrics.record_fps]
      by_cases h0 : 0 < v
      · rw [if_pos h0]
        intro x hx
        rcases List.mem_append.mp hx with hx | hx
        · exact h x hx
        · rw [List.mem_singleton] at hx
          subst hx
          exact div_pos (by norm_num) h0
      · rw [if_neg h0]
        exact h

/-- Claim C9: every frametime sample an accumulator ever holds is strictly
positive (the `fps > 0` guard means `1000 / fps` never divides by zero and
yields a positive value), so both emitted frametime percentile metrics are
strictly positive. -/
theorem frametimes_strictly_positive (ops : List Obs) :
    (∀ x ∈ (applyOps ops).frametimes, 0 < x) ∧
    (∀ q, lookupD (compute_metrics (applyOps ops)) "frametime_p50_ms" = some q → 0 < q) ∧
    (∀ q, lookupD (compute_metrics (applyOps ops)) "frametime_p95_ms" = some q → 0 < q) := by
  have hpos : ∀ x ∈ (applyOps ops).frametimes, 0 < x :=
    frametimes_pos_foldl ops LogMetrics.empty
      (by intro x hx; simp [LogMetrics.empty] at hx)
  have hsort : ∀ pct : ℚ, 0 ≤ pct → pct ≤ 1 →
      ∀ hf : (applyOps ops).frametimes ≠ [],
      0 < percentile (pySorted (applyOps ops).frametimes) pct := by
    intro pct h0 h1 hf
    have hsne : pySorted (applyOps ops).frametimes ≠ [] := by
      intro hc
      apply hf
      have hp := List.perm_insertionSort (fun x1 x2 => x1 ≤ x2) (applyOps ops).frametimes
      rw [show List.insertionSort (fun x1 x2 => x1 ≤ x2) (applyOps ops).frametimes
          = pySorted (applyOps ops).frametimes from rfl, hc] at hp
      exact (hp.symm.eq_nil)
    have hmem := percentile_mem (pySorted (applyOps ops).frametimes) pct hsne h0 h1
    have hmem2 : percentile (pySorted (applyOps ops).frametimes) pct
        ∈ (applyOps ops).frametimes :=
      (List.perm_insertionSort (fun x1 x2 => x1 ≤ x2) _).mem_iff.mp hmem
    exact hpos _ hmem2
  refine ⟨hpos, ?_, ?_⟩
  · intro q hq
    rw [compute_metrics_lookup_p50] at hq
    by_cases hf : (applyOps ops).frametimes = []
    · rw [if_pos hf] at hq
      exact absurd hq (by simp)
    · rw [if_neg hf] at hq
      have hp := hsort (1 / 2) (by norm_num) (by norm_num) hf
      rw [Option.some.injEq] at hq
      exact hq ▸ hp
  · intro q hq
    rw [compute_metrics_lookup_p95] at hq
    by_cases hf : (applyOps ops).frametimes = []
    · rw [if_pos hf] at hq
      exact absurd hq (by simp)
    · rw [if_neg hf] at hq
      have hp := hsort (19 / 20) (by norm_num) (by norm_num) hf
      rw [Option.some.injEq] at hq
      exact hq ▸ hp

/-- Witness for C9: recording FPS 2 stores the sample `500`, which is
positive. -/
theorem frametimes_strictly_positive_witness :
    (500 : ℚ) ∈ (applyOps [Obs.fps 2]).frametimes ∧ (0 : ℚ) < 500 := by
  have he : (applyOps [Obs.fps 2]).frametimes = [500] := by with_unfolding_all rfl
  have hm : (500 : ℚ) ∈ (applyOps [Obs.fps 2]).frametimes := by
    rw [he]
    exact List.mem_singleton_self 500
  exact ⟨hm, (frametimes_strictly_positive [Obs.fps 2]).1 500 hm⟩

/-- Counterexample to claim C2 as stated: in `AGGREGATE_X|a;b|1.0;;2.0` the
middle value token is empty after trimming; the code skips it (`continue`),
producing values `[1.0, 2.0]` — not the `[1.0, 0.0, 2.0]` that the claimed
0.0-for-empty rule predicts. -/
theorem aggregate_empty_value_token_dropped :
    classifyLine "AGGREGATE_X|a;b|1.0;;2.0" = some (Obs.aggregate ["a", "b"] [1, 2]) ∧
    ([1, 2] : List ℚ) ≠ [1, 0, 2] := by
  constructor
  · with_unfolding_all rfl
  · simp

/-- Claim C2 amended: every legend and value token is trimmed; a token that
is empty after trimming is dropped from the legend list and from the value
list alike (it contributes nothing — not 0.0); a non-empty value token is
parsed with Python float semantics, defaulting to 0.0 on parse failure; the
legend and value lists may still end up with different lengths. -/
theorem aggregate_token_trimming :
    (∀ toks : List (List Char), aggValsTokens toks =
      ((toks.map pyStrip).filter (fun t => !t.isEmpty)).map (fun t => (pyFloat? t).getD 0)) ∧
    (∀ (pre post : List (List Char)) (t : List Char), pyStrip t = [] →
      aggValsTokens (pre ++ t :: post) = aggValsTokens (pre ++ post)) ∧
    (∀ (pre post : List (List Char)) (t : List Char), pyStrip t = [] →
      aggLegendTokens (pre ++ t :: post) = aggLegendTokens (pre ++ post)) ∧
    (aggLegend "a;b".data).length ≠ (aggVals "1;2;3".data).length := by
  have h1 : ∀ toks : List (List Char), aggValsTokens toks =
      ((toks.map pyStrip).filter (fun t => !t.isEmpty)).map
        (fun t => (pyFloat? t).getD 0) := by
    intro toks
    induction toks with
    | nil => rfl
    | cons token rest ih =>
      by_cases he : (pyStrip token).isEmpty
      · simp [aggValsTokens, he, ih]
      · simp [aggValsTokens, he, ih]
  refine ⟨h1, fun pre post t ht => ?_, fun pre post t ht => ?_, ?_⟩
  · rw [h1, h1]
    simp [ht]
  · simp [aggLegendTokens, ht]
  · have hl : (aggLegend "a;b".data).length = 2 := by with_unfolding_all rfl
    have hv : (aggVals "1;2;3".data).length = 3 := by with_unfolding_all rfl
    rw [hl, hv]
    simp

/-- Witness for C2 (amended): a whitespace-only value token between `1` and
nothing is dropped, leaving the same value list. -/
theorem aggregate_token_trimming_witness :
    pyStrip " ".data = [] ∧
    aggValsTokens (["1".data] ++ " ".data :: []) = aggValsTokens (["1".data] ++ []) := by
  have h : pyStrip " ".data = [] := by decide
  exact ⟨h, aggregate_token_trimming.2.1 ["1".data] [] " ".data h⟩

/-- Claim C7: an exact override entry for the filename always wins; with no
override entry the case-insensitive substring cascade decides — client,
then server, then dedicated, else unknown — as on the four spec examples. -/
theorem infer_role_rules :
    (∀ (fname : String) (rm : List (String × String)) (r : String),
      rolemapGet (some rm) (basename fname) = some r → infer_role fname (some rm) = r) ∧
    (∀ (fname : String) (rm : Option (List (String × String))),
      rolemapGet rm (basename fname) = none →
      infer_role fname rm =
        (if strContains (lowerStr (basename fname)) "client" then "client"
         else if strContains (lowerStr (basename fname)) "server" then "server"
         else if strContains (lowerStr (basename fname)) "dedicated" then "dedicated"
         else "unknown")) ∧
    infer_role "ClientLog.txt" none = "client" ∧
    infer_role "ServerClient.log" none = "client" ∧
    infer_role "Dedicated01.log" none = "dedicated" ∧
    infer_role "foo.log" none = "unknown" := by
  refine ⟨fun fname rm r h => ?_, fun fname rm h => ?_, by with_unfolding_all rfl,
    by with_unfolding_all rfl, by with_unfolding_all rfl, by with_unfolding_all rfl⟩
  · simp only [infer_role, h]
  · simp only [infer_role, h]
    by_cases hc : strContains (lowerStr (basename fname)) "client" = true
    · simp [hc]
    · simp [hc]

/-- Witness for C7: an override entry mapping the file to an arbitrary role
string wins over the substring rules. -/
theorem infer_role_rules_witness :
    rolemapGet (some [("x.log", "boss")]) (basename "x.log") = some "boss" ∧
    infer_role "x.log" (some [("x.log", "boss")]) = "boss" := by
  have h : rolemapGet (some [("x.log", "boss")]) (basename "x.log") = some "boss" := by
    with_unfolding_all rfl
  exact ⟨h, infer_role_rules.1 "x.log" [("x.log", "boss")] "boss" h⟩

theorem basename_foldl_no_slash (l acc : List Char) (h : '/' ∉ acc) :
    '/' ∉ l.foldl (fun acc c => if c = '/' then [] else acc ++ [c]) acc := by
  induction l generalizing acc with
  | nil => exact h
  | cons c rest ih =>
    rw [List.foldl_cons]
    by_cases hc : c = '/'
    · rw [if_pos hc]
      exact ih [] (by simp)
    · rw [if_neg hc]
      refine ih _ ?_
      intro hmem
      rcases List.mem_append.mp hmem with hm | hm
      · exact h hm
      · rw [List.mem_singleton] at hm
        exact hc hm.symm

theorem basename_foldl_of_no_slash (l acc : List Char) (h : '/' ∉ l) :
    l.foldl (fun acc c => if c = '/' then [] else acc ++ [c]) acc = acc ++ l := by
  induction l generalizing acc with
  | nil => simp
  | cons c rest ih =>
    have hcne : c ≠ '/' := by
      intro hc
      exact h (by rw [← hc]; exact List.mem_cons_self c rest)
    rw [List.foldl_cons, if_neg hcne, ih _ (fun hm => h (List.mem_cons_of_mem c hm))]
    simp

theorem basename_idem (s : String) : basename (basename s) = basename s := by
  apply String.ext
  show ((basename s).data.foldl (fun acc c => if c = '/' then [] else acc ++ [c]) []) = _
  have hno : '/' ∉ (basename s).data := basename_foldl_no_slash s.data [] (by simp)
  rw [basename_foldl_of_no_slash _ _ hno]
  simp

/-- Claim C10: without a matching override entry, the inferred role is one
of exactly the four strings client, server, dedicated, unknown; and the
inference (override and substring matching alike) only sees the basename of
the path, never the full path. -/
theorem infer_role_range_basename (fname : String)
    (rm : Option (List (String × String))) :
    (rolemapGet rm (basename fname) = none →
      infer_role fname rm = "client" ∨ infer_role fname rm = "server" ∨
      infer_role fname rm = "dedicated" ∨ infer_role fname rm = "unknown") ∧
    infer_role fname rm = infer_role (basename fname) rm := by
  constructor
  · intro h
    simp only [infer_role, h]
    split_ifs <;> simp
  · simp only [infer_role, basename_idem]

/-- Witness for C10: a path with a directory prefix and no override lands in
the four-element range. -/
theorem infer_role_range_basename_witness :
    rolemapGet none (basename "dir/Server1.log") = none ∧
    (infer_role "dir/Server1.log" none = "client" ∨
      infer_role "dir/Server1.log" none = "server" ∨
      infer_role "dir/Server1.log" none = "dedicated" ∨
      infer_role "dir/Server1.log" none = "unknown") := by
  exact ⟨rfl, (infer_role_range_basename "dir/Server1.log" none).1 rfl⟩
